import Mathlib

/-!
# Verification of the activation registry in `src/demoActivateFlow.js`

Shallow embedding of the in-memory activation registry and its five
HTTP handlers.  The JavaScript `Map` keyed by lower-cased email is
modelled as an association list in insertion order (`Map.set` on an
existing key updates the value in place, otherwise appends; `Map.delete`
removes; iteration is in insertion order).  `Date.now()` is modelled as
a single `Nat` timestamp parameter per operation, and the random
generators `genToken` / `genCode` are modelled by passing in their
results (with the generators themselves embedded separately as functions
of their random input, for claims about the shape of what they produce).
`null` fields of a record become `Option`; JavaScript truthiness checks
on `rec.expiresAt` (which treat `0` as falsy) are embedded faithfully.
-/

namespace ActivateFlow

/-- `TOKEN_TTL_MS = 15 * 60 * 1000` (line 24). -/
def TOKEN_TTL_MS : Nat := 15 * 60 * 1000

/-- The `status` field of a stored record: `'pending' | 'active'` (line 27). -/
inductive Status where
  | pending
  | active
deriving DecidableEq, Repr

/-- One record of the in-memory database (line 27):
`{ email, status, token, code, createdAt, activatedAt, expiresAt }`,
with nullable fields as `Option`. -/
structure Rec where
  email : String
  status : Status
  token : Option String
  code : Option String
  createdAt : Nat
  activatedAt : Option Nat
  expiresAt : Option Nat
deriving DecidableEq, Repr

/-- The in-memory `db : Map` (line 28), keyed by lower-cased email,
as an association list in insertion order. -/
abbrev Db : Type := List (String × Rec)

/-- `db.get(k)` on a JavaScript `Map`: the value at key `k`, if present
(first occurrence; a `Map` holds at most one entry per key). -/
def dbGet : Db → String → Option Rec
  | [], _ => none
  | p :: tl, k => if p.1 = k then some p.2 else dbGet tl k

/-- Whether the map holds an entry for key `k`. -/
def dbHasKey : Db → String → Bool
  | [], _ => false
  | p :: tl, k => decide (p.1 = k) || dbHasKey tl k

/-- Replace the value at the first occurrence of key `k`, keeping its
insertion position. -/
def dbReplace : Db → String → Rec → Db
  | [], _, _ => []
  | p :: tl, k, r => if p.1 = k then (k, r) :: tl else p :: dbReplace tl k r

/-- `db.set(k, r)` on a JavaScript `Map`: update in place if the key is
present (keeping its insertion position), otherwise append. -/
def dbSet (db : Db) (k : String) (r : Rec) : Db :=
  if dbHasKey db k then dbReplace db k r else db ++ [(k, r)]

/-- The JavaScript regex test `/^[^\s@]+@[^\s@]+\.[^\s@]+$/` character
class `[^\s@]`: not whitespace and not `'@'`. -/
def emailChar (c : Char) : Bool :=
  !c.isWhitespace && c != '@'

/-- `isEmail` (lines 34-36): the string must decompose as `A@R` where
`A` is a nonempty run of `[^\s@]` characters (hence `A` stops at the
first `'@'`), and `R` is a nonempty run of `[^\s@]` characters
containing a `'.'` that is neither its first nor its last character
(regex `[^\s@]+\.[^\s@]+`, whose two sides may themselves contain
dots). -/
def isEmail (s : String) : Bool :=
  let l := s.data
  let a := List.takeWhile (fun c => c != '@') l
  match List.dropWhile (fun c => c != '@') l with
  | [] => false
  | _ :: r2 =>
    !a.isEmpty && List.all a emailChar && List.all r2 emailChar &&
      List.contains (List.dropLast (List.drop 1 r2)) '.'

/-- `isEmail` lifted to a possibly-absent request field
(`typeof v === 'string'` fails on `null`/`undefined`). -/
def isEmailOpt : Option String → Bool
  | some s => isEmail s
  | none => false

/-- `(strToLower email)Case()`: case-fold every character (the identities in
play are ASCII, where JavaScript and Lean case-folding agree). -/
def strToLower (s : String) : String :=
  String.mk (List.map Char.toLower s.data)

/-- `Nat.digitChar`-based decimal rendering, least significant digit
first, with explicit fuel (the fuel is always sufficient at `n + 1`).
This embeds JavaScript number-to-string conversion `('' + n)` for a
natural number. -/
def natDigitsRevAux : Nat → Nat → List Char
  | 0, _ => []
  | fuel + 1, n =>
    if n < 10 then [Nat.digitChar n]
    else Nat.digitChar (n % 10) :: natDigitsRevAux fuel (n / 10)

/-- Decimal rendering of a natural number, the JavaScript `('' + n)`. -/
def natToString (n : Nat) : String :=
  String.mk (List.reverse (natDigitsRevAux (n + 1) n))

/-- `genCode` (line 32): `'' + Math.floor(100000 + Math.random() * 900000)`,
as a function of the random draw `r = Math.random() ∈ [0, 1)`. -/
def genCodeNat (r : ℚ) : Nat :=
  Nat.floor ((100000 : ℚ) + r * 900000)

/-- The string the code generator produces for random draw `r`. -/
def genCode (r : ℚ) : String :=
  natToString (genCodeNat r)

/-- Two-character lowercase hex rendering of one byte. -/
def byteToHex (b : Nat) : List Char :=
  [Nat.digitChar (b / 16 % 16), Nat.digitChar (b % 16)]

/-- `genToken` (line 31): `crypto.randomBytes(32).toString('hex')`, as a
function of the random bytes drawn. -/
def genToken (bytes : List Nat) : String :=
  String.mk (List.flatten (List.map byteToHex bytes))

/-- The regex test `/^[0-9]{6}$/.test(s)` (line 162): exactly six
characters, all decimal digits. -/
def isSixDigits (s : String) : Bool :=
  s.length == 6 && List.all s.data Char.isDigit

/-- `issue(email)` (lines 81-93): build a fresh pending record and
`db.set((strToLower email)Case(), rec)`.  `now()` is the operation's
timestamp `t`; the generated token and code are parameters. -/
def issue (db : Db) (email tok code : String) (t : Nat) : Rec × Db :=
  let r0 : Rec :=
    { email := email
      status := .pending
      token := some tok
      code := some code
      createdAt := t
      activatedAt := none
      expiresAt := some (t + TOKEN_TTL_MS) }
  (r0, dbSet db (strToLower email) r0)

/-- `findByToken(token)` (lines 95-100) together with the key of the
entry found: first record in insertion order whose `token === token`.
A record whose `token` is `null` never matches (the supplied token is a
string). -/
def findEntryByToken : Db → String → Option (String × Rec)
  | [], _ => none
  | p :: tl, tok => if p.2.token = some tok then some p else findEntryByToken tl tok

/-- `activateRecord(rec)` (lines 102-108): flip to active, set
`activatedAt = now()`, null out `token`, `code`, `expiresAt`. -/
def activateRecord (r : Rec) (t : Nat) : Rec :=
  { r with
    status := .active
    activatedAt := some t
    token := none
    code := none
    expiresAt := none }

/-- The truthiness-guarded expiry test `rec.expiresAt && rec.expiresAt < t`
(lines 113, 151, 168): a `null` — or `0`, which is falsy — `expiresAt`
never counts as expired. -/
def recExpired (r : Rec) (t : Nat) : Bool :=
  match r.expiresAt with
  | some e => decide (e ≠ 0) && decide (e < t)
  | none => false

/-- Whether the sweep deletes a record: `status === 'pending'` and its
truthy `expiresAt` is strictly before `t` (line 113). -/
def sweepable (r : Rec) (t : Nat) : Prop :=
  r.status = .pending ∧ recExpired r t = true

instance (r : Rec) (t : Nat) : Decidable (sweepable r t) := by
  unfold sweepable
  infer_instance

/-- `purgeExpired()` (lines 110-117): delete every entry with
`status === 'pending'` whose truthy `expiresAt` is strictly before `t`. -/
def purgeExpired : Db → Nat → Db
  | [], _ => []
  | p :: tl, t =>
    if sweepable p.2 t then purgeExpired tl t else p :: purgeExpired tl t

/-- Outcome of `handleRegister`, transport stripped to the payload the
core decides (the activation link is base-URL + token, adapter side). -/
inductive RegisterResult where
  | invalidEmail
  | ok (email : String) (status : Status) (token code : String) (expiresAt : Nat)
deriving DecidableEq, Repr

/-- `handleRegister` (lines 119-141): validate the email (from body or
query, modelled as one optional field), purge, issue.  The generated
token and code are the parameters `tok`, `code`. -/
def handleRegister (db : Db) (email? : Option String) (tok code : String) (t : Nat) :
    RegisterResult × Db :=
  match email? with
  | none => (.invalidEmail, db)
  | some email =>
    if isEmail email then
      let db1 := purgeExpired db t
      let (r0, db2) := issue db1 email tok code t
      (.ok r0.email r0.status tok code (t + TOKEN_TTL_MS), db2)
    else (.invalidEmail, db)

/-- Outcome of `handleActivateByToken` (HTTP 400/404/200/410/200). -/
inductive TokenResult where
  | missingToken
  | notFound
  | alreadyActive (email : String)
  | expired
  | activated (email : String) (activatedAt : Nat)
deriving DecidableEq, Repr

/-- `handleActivateByToken` (lines 143-155): a missing or empty token
(falsy `!token`) is rejected; purge; linear token lookup; active →
idempotent 200; truthy expired → 410; otherwise activate in place. -/
def handleActivateByToken (db : Db) (token? : Option String) (t : Nat) :
    TokenResult × Db :=
  match token? with
  | none => (.missingToken, db)
  | some tok =>
    if tok = "" then (.missingToken, db)
    else
      let db1 := purgeExpired db t
      match findEntryByToken db1 tok with
      | none => (.notFound, db1)
      | some (k, r0) =>
        if r0.status = .active then (.alreadyActive r0.email, db1)
        else if recExpired r0 t then (.expired, db1)
        else
          let r2 := activateRecord r0 t
          (.activated r2.email t, dbSet db1 k r2)

/-- Outcome of `handleActivateByCode` (HTTP 400/400/404/200/410/401/200). -/
inductive CodeResult where
  | invalidEmail
  | invalidCode
  | notFound
  | alreadyActive (email : String)
  | expired
  | codeMismatch
  | activated (email : String) (activatedAt : Nat)
deriving DecidableEq, Repr

/-- `handleActivateByCode` (lines 157-177): validate email then code
format (`String(code || '')` turns an absent code into `""`); purge;
lookup by lower-cased email; active → idempotent 200; truthy expired →
410; stored code comparison; activate in place. -/
def handleActivateByCode (db : Db) (email? code? : Option String) (t : Nat) :
    CodeResult × Db :=
  match email? with
  | none => (.invalidEmail, db)
  | some email =>
    if isEmail email then
      let codeStr := Option.getD code? ""
      if isSixDigits codeStr then
        let db1 := purgeExpired db t
        match dbGet db1 (strToLower email) with
        | none => (.notFound, db1)
        | some r0 =>
          if r0.status = .active then (.alreadyActive r0.email, db1)
          else if recExpired r0 t then (.expired, db1)
          else if r0.code ≠ some codeStr then (.codeMismatch, db1)
          else
            let r2 := activateRecord r0 t
            (.activated r2.email t, dbSet db1 (strToLower email) r2)
      else (.invalidCode, db)
    else (.invalidEmail, db)

/-- Outcome of `handleStatus`. -/
inductive StatusResult where
  | invalidEmail
  | noRecord (email : String)
  | report (email : String) (status : Status) (createdAt : Nat)
      (activatedAt : Option Nat) (expiresAt : Option Nat)
deriving DecidableEq, Repr

/-- `handleStatus` (lines 179-194): validate email, purge, then report
the stored record's fields verbatim, or a synthesized `'none'`. -/
def handleStatus (db : Db) (email? : Option String) (t : Nat) :
    StatusResult × Db :=
  match email? with
  | none => (.invalidEmail, db)
  | some email =>
    if isEmail email then
      let db1 := purgeExpired db t
      match dbGet db1 (strToLower email) with
      | none => (.noRecord email, db1)
      | some r0 =>
        (.report r0.email r0.status r0.createdAt r0.activatedAt r0.expiresAt, db1)
    else (.invalidEmail, db)

/-- The in-place regeneration `resend` performs on a still-pending
record (lines 210-212): overwrite `token`, `code` and `expiresAt`,
leaving `email`, `status`, `createdAt`, `activatedAt` untouched. -/
def reissueRec (r : Rec) (newTok newCode : String) (t : Nat) : Rec :=
  { r with
    token := some newTok
    code := some newCode
    expiresAt := some (t + TOKEN_TTL_MS) }

/-- Outcome of `handleResend`. -/
inductive ResendResult where
  | invalidEmail
  | alreadyActive (email : String)
  | reissued (email : String) (token code : String) (expiresAt : Nat)
deriving DecidableEq, Repr

/-- `handleResend` (lines 196-227): validate email, purge, look the
record up; if absent, `issue` a fresh one (whose generated pair
`tokA`/`codeA` is immediately overwritten by the unconditional re-issue
below, exactly as in the source); if active, return without touching
anything; otherwise overwrite `token`, `code`, `expiresAt` in place,
preserving `createdAt` and `email`. -/
def handleResend (db : Db) (email? : Option String) (tokA codeA newTok newCode : String)
    (t : Nat) : ResendResult × Db :=
  match email? with
  | none => (.invalidEmail, db)
  | some email =>
    if isEmail email then
      let db1 := purgeExpired db t
      let found := dbGet db1 (strToLower email)
      let (r0, db2) :=
        match found with
        | none => issue db1 email tokA codeA t
        | some r0 => (r0, db1)
      if r0.status = .active then (.alreadyActive r0.email, db2)
      else
        let r2 : Rec := reissueRec r0 newTok newCode t
        (.reissued r2.email newTok newCode (t + TOKEN_TTL_MS), dbSet db2 (strToLower email) r2)
    else (.invalidEmail, db)


/-! ## Association-list lemmas for the `Map` model -/

theorem dbGet_mem : ∀ {db : Db} {k : String} {r : Rec},
    dbGet db k = some r → (k, r) ∈ db
  | [], k, r, h => by simp [dbGet] at h
  | p :: tl, k, r, h => by
    rw [dbGet] at h
    by_cases hk : p.1 = k
    · rw [if_pos hk] at h
      injection h with h2
      rw [← hk, ← h2]
      exact List.mem_cons_self p tl
    · rw [if_neg hk] at h
      exact List.mem_cons_of_mem p (dbGet_mem h)

theorem dbGet_eq_none_of_forall : ∀ {db : Db} {k : String},
    (∀ p ∈ db, p.1 ≠ k) → dbGet db k = none
  | [], _, _ => rfl
  | p :: tl, k, h => by
    rw [dbGet, if_neg (h p (List.mem_cons_self p tl))]
    exact dbGet_eq_none_of_forall fun q hq => h q (List.mem_cons_of_mem p hq)

theorem dbGet_dbReplace_self : ∀ (db : Db) (k : String) (r : Rec),
    dbHasKey db k = true → dbGet (dbReplace db k r) k = some r
  | [], k, r, h => by simp [dbHasKey] at h
  | p :: tl, k, r, h => by
    rw [dbReplace]
    by_cases hpk : p.1 = k
    · rw [if_pos hpk, dbGet, if_pos rfl]
    · rw [if_neg hpk, dbGet, if_neg hpk]
      rw [dbHasKey] at h
      simp only [Bool.or_eq_true, decide_eq_true_eq] at h
      exact dbGet_dbReplace_self tl k r (by simpa using h.resolve_left hpk)

theorem dbGet_append_single : ∀ (db : Db) (k : String) (r : Rec),
    dbGet (db ++ [(k, r)]) k = some r ∨ (dbGet (db ++ [(k, r)]) k = dbGet db k ∧ dbGet db k ≠ none)
  | [], k, r => Or.inl (by rw [List.nil_append, dbGet, if_pos rfl])
  | p :: tl, k, r => by
    rw [List.cons_append, dbGet, dbGet]
    by_cases hpk : p.1 = k
    · rw [if_pos hpk, if_pos hpk]
      exact Or.inr ⟨rfl, by simp⟩
    · rw [if_neg hpk, if_neg hpk]
      exact dbGet_append_single tl k r

theorem dbGet_dbSet_self (db : Db) (k : String) (r : Rec) :
    dbGet (dbSet db k r) k = some r := by
  unfold dbSet
  by_cases hk : dbHasKey db k = true
  · rw [if_pos hk]
    exact dbGet_dbReplace_self db k r hk
  · rw [if_neg hk]
    have hnone : dbGet db k = none := by
      apply dbGet_eq_none_of_forall
      intro p hp hpk
      apply hk
      clear * - hp hpk
      induction db with
      | nil => exact absurd hp (List.not_mem_nil p)
      | cons q tl ih =>
        rw [dbHasKey]
        cases hp with
        | head => simp [hpk]
        | tail _ hm => simp [ih hm]
    rcases dbGet_append_single db k r with h | ⟨_, hne⟩
    · exact h
    · exact absurd hnone hne

theorem dbGet_dbReplace_ne : ∀ (db : Db) (k k' : String) (r : Rec), k' ≠ k →
    dbGet (dbReplace db k r) k' = dbGet db k'
  | [], _, _, _, _ => rfl
  | p :: tl, k, k', r, hne => by
    rw [dbReplace]
    by_cases hpk : p.1 = k
    · rw [if_pos hpk, dbGet, dbGet, if_neg (Ne.symm hne), if_neg (hpk ▸ Ne.symm hne)]
    · rw [if_neg hpk, dbGet, dbGet]
      by_cases hpk' : p.1 = k'
      · rw [if_pos hpk', if_pos hpk']
      · rw [if_neg hpk', if_neg hpk']
        exact dbGet_dbReplace_ne tl k k' r hne

theorem dbGet_append_single_ne : ∀ (db : Db) (k k' : String) (r : Rec), k' ≠ k →
    dbGet (db ++ [(k, r)]) k' = dbGet db k'
  | [], k, k', r, hne => by simp [dbGet, Ne.symm hne]
  | p :: tl, k, k', r, hne => by
    rw [List.cons_append, dbGet, dbGet]
    by_cases hpk' : p.1 = k'
    · rw [if_pos hpk', if_pos hpk']
    · rw [if_neg hpk', if_neg hpk']
      exact dbGet_append_single_ne tl k k' r hne

theorem dbGet_dbSet_ne (db : Db) (k k' : String) (r : Rec) (hne : k' ≠ k) :
    dbGet (dbSet db k r) k' = dbGet db k' := by
  unfold dbSet
  split
  · exact dbGet_dbReplace_ne db k k' r hne
  · exact dbGet_append_single_ne db k k' r hne

theorem mem_dbReplace : ∀ {db : Db} {k : String} {r : Rec} {p : String × Rec},
    p ∈ dbReplace db k r → p = (k, r) ∨ p ∈ db
  | [], _, _, _, h => by simp [dbReplace] at h
  | q :: tl, k, r, p, h => by
    rw [dbReplace] at h
    by_cases hqk : q.1 = k
    · rw [if_pos hqk] at h
      cases h with
      | head => exact Or.inl rfl
      | tail _ hm => exact Or.inr (List.mem_cons_of_mem q hm)
    · rw [if_neg hqk] at h
      cases h with
      | head => exact Or.inr (List.mem_cons_self q tl)
      | tail _ hm =>
        cases mem_dbReplace hm with
        | inl he => exact Or.inl he
        | inr hm2 => exact Or.inr (List.mem_cons_of_mem q hm2)

theorem mem_dbSet {db : Db} {k : String} {r : Rec} {p : String × Rec}
    (h : p ∈ dbSet db k r) : p = (k, r) ∨ p ∈ db := by
  unfold dbSet at h
  split at h
  · exact mem_dbReplace h
  · rcases List.mem_append.mp h with hl | hr
    · exact Or.inr hl
    · exact Or.inl (List.mem_singleton.mp hr)

theorem mem_purge : ∀ {db : Db} {t : Nat} {p : String × Rec},
    p ∈ purgeExpired db t → p ∈ db
  | [], _, _, h => by simp [purgeExpired] at h
  | q :: tl, t, p, h => by
    rw [purgeExpired] at h
    split at h
    · exact List.mem_cons_of_mem q (mem_purge h)
    · cases h with
      | head => exact List.mem_cons_self q tl
      | tail _ hm => exact List.mem_cons_of_mem q (mem_purge hm)

/-- A record that the sweep keeps and that `dbGet` finds is still found,
unchanged, after the sweep. -/
theorem dbGet_purge_of_kept : ∀ {db : Db} {k : String} {r : Rec} {t : Nat},
    dbGet db k = some r → ¬ sweepable r t → dbGet (purgeExpired db t) k = some r
  | [], _, _, _, h, _ => by simp [dbGet] at h
  | p :: tl, k, r, t, h, hkeep => by
    rw [dbGet] at h
    rw [purgeExpired]
    by_cases hpk : p.1 = k
    · rw [if_pos hpk] at h
      injection h with h2
      rw [if_neg (h2 ▸ hkeep), dbGet, if_pos hpk, h2]
    · rw [if_neg hpk] at h
      split
      · exact dbGet_purge_of_kept h hkeep
      · rw [dbGet, if_neg hpk]
        exact dbGet_purge_of_kept h hkeep

/-- With no duplicate keys, a record that the sweep deletes is gone
after the sweep. -/
theorem dbGet_purge_of_removed : ∀ {db : Db} {k : String} {r : Rec} {t : Nat},
    (List.map Prod.fst db).Nodup → dbGet db k = some r → sweepable r t →
    dbGet (purgeExpired db t) k = none
  | [], _, _, _, _, h, _ => by simp [dbGet] at h
  | p :: tl, k, r, t, hnd, h, hrem => by
    rw [List.map_cons, List.nodup_cons] at hnd
    rw [dbGet] at h
    rw [purgeExpired]
    by_cases hpk : p.1 = k
    · rw [if_pos hpk] at h
      injection h with h2
      rw [if_pos (h2 ▸ hrem)]
      apply dbGet_eq_none_of_forall
      intro q hq hqk
      exact hnd.1 (hpk ▸ hqk ▸ List.mem_map_of_mem Prod.fst (mem_purge hq))
    · rw [if_neg hpk] at h
      split
      · exact dbGet_purge_of_removed hnd.2 h hrem
      · rw [dbGet, if_neg hpk]
        exact dbGet_purge_of_removed hnd.2 h hrem

theorem findEntryByToken_eq_none : ∀ {db : Db} {tok : String},
    (∀ p ∈ db, p.2.token ≠ some tok) → findEntryByToken db tok = none
  | [], _, _ => rfl
  | p :: tl, tok, h => by
    rw [findEntryByToken, if_neg (h p (List.mem_cons_self p tl))]
    exact findEntryByToken_eq_none fun q hq => h q (List.mem_cons_of_mem p hq)

/-- If the only entry of `db` holding the token is `(k0, r0)`, the
linear scan finds exactly it. -/
theorem findEntryByToken_eq_some_of_unique : ∀ {db : Db} {tok k0 : String} {r0 : Rec},
    (k0, r0) ∈ db → r0.token = some tok →
    (∀ p ∈ db, p.2.token = some tok → p = (k0, r0)) →
    findEntryByToken db tok = some (k0, r0)
  | [], _, _, _, hmem, _, _ => absurd hmem (List.not_mem_nil _)
  | p :: tl, tok, k0, r0, hmem, htok, huniq => by
    rw [findEntryByToken]
    by_cases hp : p.2.token = some tok
    · rw [if_pos hp, huniq p (List.mem_cons_self p tl) hp]
    · rw [if_neg hp]
      have hmem2 : (k0, r0) ∈ tl := by
        cases hmem with
        | head => exact absurd htok hp
        | tail _ hm => exact hm
      exact findEntryByToken_eq_some_of_unique hmem2 htok
        fun q hq => huniq q (List.mem_cons_of_mem p hq)

/-! ## Decimal rendering and generator-output lemmas -/

theorem digitChar_isDigit : ∀ d < 10, (Nat.digitChar d).isDigit = true := by decide

theorem natDigitsRevAux_spec : ∀ (fuel k n : Nat), n < fuel → 10 ^ k ≤ n → n < 10 ^ (k + 1) →
    (natDigitsRevAux fuel n).length = k + 1 ∧
      List.all (natDigitsRevAux fuel n) Char.isDigit = true
  | 0, _, n, hf, _, _ => absurd hf (Nat.not_lt_zero n)
  | fuel + 1, k, n, hf, h1, h2 => by
    rw [natDigitsRevAux]
    by_cases hn : n < 10
    · have hk : k = 0 := by
        by_contra hk0
        have h10 : (10 : Nat) ^ 1 ≤ 10 ^ k :=
          Nat.pow_le_pow_right (by norm_num) (Nat.one_le_iff_ne_zero.mpr hk0)
        simp only [pow_one] at h10
        omega
      subst hk
      rw [if_pos hn]
      refine ⟨rfl, ?_⟩
      simp only [List.all_cons, List.all_nil, Bool.and_true]
      exact digitChar_isDigit n hn
    · rw [if_neg hn]
      push_neg at hn
      obtain ⟨k', rfl⟩ : ∃ k', k = k' + 1 := by
        cases k with
        | zero => rw [pow_succ, pow_zero, one_mul] at h2; omega
        | succ k' => exact ⟨k', rfl⟩
      have hdiv1 : 10 ^ k' ≤ n / 10 := by
        rw [Nat.le_div_iff_mul_le (by norm_num)]
        calc 10 ^ k' * 10 = 10 ^ (k' + 1) := (pow_succ 10 k').symm
        _ ≤ n := h1
      have hdiv2 : n / 10 < 10 ^ (k' + 1) := by
        rw [Nat.div_lt_iff_lt_mul (by norm_num)]
        calc n < 10 ^ (k' + 1 + 1) := h2
        _ = 10 ^ (k' + 1) * 10 := pow_succ 10 (k' + 1)
      have hfuel : n / 10 < fuel := by
        have : n / 10 < n := Nat.div_lt_self (by omega) (by norm_num)
        omega
      obtain ⟨ihlen, ihall⟩ := natDigitsRevAux_spec fuel k' (n / 10) hfuel hdiv1 hdiv2
      refine ⟨by rw [List.length_cons, ihlen], ?_⟩
      simp only [List.all_cons, Bool.and_eq_true]
      exact ⟨digitChar_isDigit (n % 10) (Nat.mod_lt n (by norm_num)), ihall⟩

theorem natToString_spec {k n : Nat} (h1 : 10 ^ k ≤ n) (h2 : n < 10 ^ (k + 1)) :
    (natToString n).length = k + 1 ∧
      List.all (natToString n).data Char.isDigit = true := by
  obtain ⟨hlen, hall⟩ :=
    natDigitsRevAux_spec (n + 1) k n (Nat.lt_succ_self n) h1 h2
  unfold natToString
  constructor
  · show (List.reverse (natDigitsRevAux (n + 1) n)).length = k + 1
    rw [List.length_reverse, hlen]
  · show List.all (List.reverse (natDigitsRevAux (n + 1) n)) Char.isDigit = true
    rw [List.all_reverse]
    exact hall

theorem genCodeNat_bounds {r : ℚ} (h0 : 0 ≤ r) (h1 : r < 1) :
    100000 ≤ genCodeNat r ∧ genCodeNat r ≤ 999999 := by
  unfold genCodeNat
  constructor
  · apply Nat.le_floor
    have : (0 : ℚ) ≤ r * 900000 := mul_nonneg h0 (by norm_num)
    push_cast
    linarith
  · have hlt : genCodeNat r < 1000000 := by
      unfold genCodeNat
      rw [Nat.floor_lt (by positivity)]
      have : r * 900000 < 1 * 900000 :=
        mul_lt_mul_of_pos_right h1 (by norm_num)
      push_cast
      linarith
    unfold genCodeNat at hlt
    omega

theorem isSixDigits_genCode {r : ℚ} (h0 : 0 ≤ r) (h1 : r < 1) :
    isSixDigits (genCode r) = true := by
  obtain ⟨hlo, hhi⟩ := genCodeNat_bounds h0 h1
  obtain ⟨hlen, hall⟩ := natToString_spec (k := 5) (n := genCodeNat r)
    (by norm_num at hlo ⊢; omega) (by norm_num; omega)
  unfold genCode isSixDigits
  rw [hlen, hall]
  simp

theorem genToken_length (bytes : List Nat) :
    (genToken bytes).length = 2 * bytes.length := by
  unfold genToken
  show (List.flatten (List.map byteToHex bytes)).length = 2 * bytes.length
  induction bytes with
  | nil => rfl
  | cons b tl ih =>
    rw [List.map_cons, List.flatten_cons, List.length_append, ih, List.length_cons]
    show 2 + 2 * tl.length = 2 * (tl.length + 1)
    ring

theorem genToken_ne_empty {bytes : List Nat} (h : bytes ≠ []) :
    genToken bytes ≠ "" := by
  intro he
  have : (genToken bytes).length = 0 := by rw [he]; rfl
  rw [genToken_length] at this
  have : bytes.length = 0 := by omega
  exact h (List.length_eq_zero.mp this)

/-! ## The credential-pairing invariant (claim C6) -/

/-- Invariant of a single stored record: while `Pending`, the token and
code are both present and `activatedAt` is unset; once `Active`, token,
code and `expiresAt` are all null and `activatedAt` is set. -/
def RecInv (r : Rec) : Prop :=
  (r.status = .pending →
    r.token.isSome = true ∧ r.code.isSome = true ∧ r.activatedAt = none) ∧
  (r.status = .active →
    r.token = none ∧ r.code = none ∧ r.expiresAt = none ∧
      r.activatedAt.isSome = true)

instance (r : Rec) : Decidable (RecInv r) := by
  unfold RecInv
  infer_instance

/-- The invariant over the whole registry. -/
def DbInv (db : Db) : Prop := ∀ p ∈ db, RecInv p.2

instance (db : Db) : Decidable (DbInv db) := by
  unfold DbInv
  infer_instance

theorem DbInv_purge {db : Db} {t : Nat} (h : DbInv db) :
    DbInv (purgeExpired db t) :=
  fun p hp => h p (mem_purge hp)

theorem DbInv_dbSet {db : Db} {k : String} {r : Rec}
    (h : DbInv db) (hr : RecInv r) : DbInv (dbSet db k r) := by
  intro p hp
  cases mem_dbSet hp with
  | inl he => rw [he]; exact hr
  | inr hm => exact h p hm

theorem RecInv_activate (r : Rec) (t : Nat) : RecInv (activateRecord r t) := by
  constructor <;> simp [activateRecord]

theorem RecInv_issued (email tok code : String) (t : Nat) :
    RecInv { email := email, status := .pending, token := some tok,
             code := some code, createdAt := t, activatedAt := none,
             expiresAt := some (t + TOKEN_TTL_MS) } := by
  constructor <;> simp

theorem DbInv_handleRegister (db : Db) (email? : Option String) (tok code : String)
    (t : Nat) (h : DbInv db) : DbInv (handleRegister db email? tok code t).2 := by
  cases email? with
  | none => exact h
  | some email =>
    simp only [handleRegister, issue]
    split
    · exact DbInv_dbSet (DbInv_purge h) (RecInv_issued email tok code t)
    · exact h

theorem DbInv_handleActivateByToken (db : Db) (token? : Option String) (t : Nat)
    (h : DbInv db) : DbInv (handleActivateByToken db token? t).2 := by
  cases token? with
  | none => exact h
  | some tok =>
    simp only [handleActivateByToken]
    split
    · exact h
    · split
      · exact DbInv_purge h
      · split
        · exact DbInv_purge h
        · split
          · exact DbInv_purge h
          · exact DbInv_dbSet (DbInv_purge h) (RecInv_activate _ t)

theorem DbInv_handleActivateByCode (db : Db) (email? code? : Option String) (t : Nat)
    (h : DbInv db) : DbInv (handleActivateByCode db email? code? t).2 := by
  cases email? with
  | none => exact h
  | some email =>
    simp only [handleActivateByCode]
    split
    · split
      · split
        · exact DbInv_purge h
        · split
          · exact DbInv_purge h
          · split
            · exact DbInv_purge h
            · split
              · exact DbInv_purge h
              · exact DbInv_dbSet (DbInv_purge h) (RecInv_activate _ t)
      · exact h
    · exact h

theorem DbInv_handleStatus (db : Db) (email? : Option String) (t : Nat)
    (h : DbInv db) : DbInv (handleStatus db email? t).2 := by
  cases email? with
  | none => exact h
  | some email =>
    simp only [handleStatus]
    split
    · split
      · exact DbInv_purge h
      · exact DbInv_purge h
    · exact h

theorem DbInv_handleResend (db : Db) (email? : Option String)
    (tokA codeA newTok newCode : String) (t : Nat) (h : DbInv db) :
    DbInv (handleResend db email? tokA codeA newTok newCode t).2 := by
  cases email? with
  | none => exact h
  | some email =>
    simp only [handleResend]
    split
    · cases hfound : dbGet (purgeExpired db t) (strToLower email) with
      | none =>
        simp only [hfound, issue]
        split
        · next hact => exact absurd hact (by simp)
        · apply DbInv_dbSet (DbInv_dbSet (DbInv_purge h) (RecInv_issued email tokA codeA t))
          constructor
          · intro _
            refine ⟨by simp [reissueRec], by simp [reissueRec], rfl⟩
          · intro hact
            exact absurd hact (by simp [reissueRec])
      | some r0 =>
        simp only [hfound]
        split
        · exact DbInv_purge h
        · next hnact =>
          have hr0 : RecInv r0 := h _ (mem_purge (dbGet_mem hfound))
          have hpend : r0.status = .pending := by
            cases hs : r0.status
            · rfl
            · exact absurd hs hnact
          apply DbInv_dbSet (DbInv_purge h)
          constructor
          · intro _
            exact ⟨by simp [reissueRec], by simp [reissueRec], (hr0.1 hpend).2.2⟩
          · intro hact
            exact absurd hact hnact
    · exact h

/-! ## Further map lemmas: sweeping, key-nodup preservation -/

theorem mem_purge_not_sweepable : ∀ {db : Db} {t : Nat} {p : String × Rec},
    p ∈ purgeExpired db t → ¬ sweepable p.2 t
  | [], _, p, h => by simp [purgeExpired] at h
  | q :: tl, t, p, h => by
    rw [purgeExpired] at h
    split at h
    · exact mem_purge_not_sweepable h
    · cases h with
      | head => assumption
      | tail _ hm => exact mem_purge_not_sweepable hm

theorem mem_purge_of_mem : ∀ {db : Db} {t : Nat} {p : String × Rec},
    p ∈ db → ¬ sweepable p.2 t → p ∈ purgeExpired db t
  | [], _, p, h, _ => absurd h (List.not_mem_nil p)
  | q :: tl, t, p, h, hk => by
    rw [purgeExpired]
    rcases List.mem_cons.mp h with rfl | hm
    · rw [if_neg hk]
      exact List.mem_cons_self _ _
    · split
      · exact mem_purge_of_mem hm hk
      · exact List.mem_cons_of_mem q (mem_purge_of_mem hm hk)

theorem purge_sublist : ∀ (db : Db) (t : Nat), List.Sublist (purgeExpired db t) db
  | [], _ => List.Sublist.refl []
  | q :: tl, t => by
    rw [purgeExpired]
    split
    · exact List.Sublist.cons q (purge_sublist tl t)
    · exact List.Sublist.cons₂ q (purge_sublist tl t)

theorem nodup_purge {db : Db} {t : Nat} (h : (List.map Prod.fst db).Nodup) :
    (List.map Prod.fst (purgeExpired db t)).Nodup :=
  List.Nodup.sublist (List.Sublist.map Prod.fst (purge_sublist db t)) h

theorem map_fst_dbReplace : ∀ (db : Db) (k : String) (r : Rec),
    List.map Prod.fst (dbReplace db k r) = List.map Prod.fst db
  | [], _, _ => rfl
  | q :: tl, k, r => by
    rw [dbReplace]
    by_cases hqk : q.1 = k
    · rw [if_pos hqk, List.map_cons, List.map_cons, hqk]
    · rw [if_neg hqk, List.map_cons, List.map_cons, map_fst_dbReplace tl k r]

theorem dbHasKey_eq_false : ∀ {db : Db} {k : String},
    dbHasKey db k = false → ∀ p ∈ db, p.1 ≠ k
  | [], _, _, p, hp => absurd hp (List.not_mem_nil p)
  | q :: tl, k, h, p, hp => by
    rw [dbHasKey] at h
    simp only [Bool.or_eq_false_iff, decide_eq_false_iff_not] at h
    cases hp with
    | head => exact h.1
    | tail _ hm => exact dbHasKey_eq_false h.2 p hm

theorem nodup_dbSet {db : Db} {k : String} {r : Rec}
    (h : (List.map Prod.fst db).Nodup) :
    (List.map Prod.fst (dbSet db k r)).Nodup := by
  unfold dbSet
  split
  · rw [map_fst_dbReplace]
    exact h
  · next hkey =>
    rw [List.map_append]
    apply List.Nodup.append h (by simp)
    intro a ha hb
    simp only [List.map_cons, List.map_nil, List.mem_singleton] at hb
    obtain ⟨p, hp, hpa⟩ := List.mem_map.mp ha
    subst hpa
    exact dbHasKey_eq_false (Bool.of_not_eq_true hkey) p hp hb

theorem mem_dbReplace_nodup : ∀ {db : Db} {k : String} {r : Rec} {p : String × Rec},
    (List.map Prod.fst db).Nodup → p ∈ dbReplace db k r →
    p = (k, r) ∨ (p ∈ db ∧ p.1 ≠ k)
  | [], _, _, _, _, h => by simp [dbReplace] at h
  | q :: tl, k, r, p, hnd, h => by
    rw [List.map_cons, List.nodup_cons] at hnd
    rw [dbReplace] at h
    by_cases hqk : q.1 = k
    · rw [if_pos hqk] at h
      cases h with
      | head => exact Or.inl rfl
      | tail _ hm =>
        refine Or.inr ⟨List.mem_cons_of_mem q hm, fun hpk => ?_⟩
        exact hnd.1 (hqk ▸ hpk ▸ List.mem_map_of_mem Prod.fst hm)
    · rw [if_neg hqk] at h
      cases h with
      | head => exact Or.inr ⟨List.mem_cons_self q tl, hqk⟩
      | tail _ hm =>
        cases mem_dbReplace_nodup hnd.2 hm with
        | inl he => exact Or.inl he
        | inr hc => exact Or.inr ⟨List.mem_cons_of_mem q hc.1, hc.2⟩

theorem mem_dbSet_nodup {db : Db} {k : String} {r : Rec} {p : String × Rec}
    (hnd : (List.map Prod.fst db).Nodup) (h : p ∈ dbSet db k r) :
    p = (k, r) ∨ (p ∈ db ∧ p.1 ≠ k) := by
  unfold dbSet at h
  split at h
  · exact mem_dbReplace_nodup hnd h
  · next hkey =>
    rcases List.mem_append.mp h with hl | hr
    · exact Or.inr ⟨hl, dbHasKey_eq_false (Bool.of_not_eq_true hkey) p hl⟩
    · exact Or.inl (List.mem_singleton.mp hr)

theorem dbGet_eq_of_mem_nodup : ∀ {db : Db} {k : String} {r : Rec},
    (List.map Prod.fst db).Nodup → (k, r) ∈ db → dbGet db k = some r
  | [], _, _, _, hm => absurd hm (List.not_mem_nil _)
  | q :: tl, k, r, hnd, hm => by
    rw [List.map_cons, List.nodup_cons] at hnd
    rw [dbGet]
    cases hm with
    | head => rw [if_pos rfl]
    | tail _ hm2 =>
      have hqk : q.1 ≠ k := by
        intro he
        exact hnd.1 (by rw [he]; exact List.mem_map_of_mem Prod.fst hm2)
      rw [if_neg hqk]
      exact dbGet_eq_of_mem_nodup hnd.2 hm2

/-! ## Sample data for concrete witnesses -/

/-- A sample stored pending record: token `"tokOld"`, code `"123456"`,
created at 1, expiring at 5. -/
def samplePending : Rec :=
  { email := "a@b.com", status := .pending, token := some "tokOld",
    code := some "123456", createdAt := 1, activatedAt := none,
    expiresAt := some 5 }

/-- A sample stored active record, as activation leaves one. -/
def sampleActive : Rec :=
  { email := "a@b.com", status := .active, token := none,
    code := none, createdAt := 1, activatedAt := some 2,
    expiresAt := none }

/-! ## Claims -/

/-- C4: for every syntactically valid identity and every prior registry
state — including one where that identity is already Pending or already
Active — `register` produces a stored record with status Pending, a
non-empty token, a code matching the 6-digit format, `createdAt` the
operation's time, and `expiresAt = createdAt + TTL`. -/
theorem C4_register_always_fresh_pending (db : Db) (email : String)
    (bytes : List Nat) (r : ℚ) (t : Nat) (hem : isEmail email = true)
    (hb : bytes.length = 32) (h0 : 0 ≤ r) (h1 : r < 1) :
    ∃ stored : Rec,
      dbGet (handleRegister db (some email) (genToken bytes) (genCode r) t).2
          (strToLower email) = some stored ∧
      stored.status = .pending ∧
      stored.token = some (genToken bytes) ∧ genToken bytes ≠ "" ∧
      stored.code = some (genCode r) ∧ isSixDigits (genCode r) = true ∧
      stored.createdAt = t ∧ stored.activatedAt = none ∧
      stored.expiresAt = some (stored.createdAt + TOKEN_TTL_MS) := by
  refine ⟨{ email := email, status := .pending, token := some (genToken bytes),
            code := some (genCode r), createdAt := t, activatedAt := none,
            expiresAt := some (t + TOKEN_TTL_MS) }, ?_, rfl, rfl,
          genToken_ne_empty (by intro he; rw [he] at hb; simp at hb),
          rfl, isSixDigits_genCode h0 h1, rfl, rfl, rfl⟩
  simp only [handleRegister, hem, if_true, issue]
  exact dbGet_dbSet_self _ _ _

/-- C4 witness: a concrete registration over a registry that already
holds a pending record for the same identity. -/
theorem C4_witness :
    isEmail "a@b.com" = true ∧ (List.replicate 32 0).length = 32 ∧
    (0 : ℚ) ≤ 0 ∧ (0 : ℚ) < 1 ∧
    (∃ stored : Rec,
      dbGet (handleRegister [("a@b.com", samplePending)] (some "a@b.com")
          (genToken (List.replicate 32 0)) (genCode 0) 7).2
          (strToLower "a@b.com") = some stored ∧
      stored.status = .pending ∧
      stored.token = some (genToken (List.replicate 32 0)) ∧
      genToken (List.replicate 32 0) ≠ "" ∧
      stored.code = some (genCode 0) ∧ isSixDigits (genCode 0) = true ∧
      stored.createdAt = 7 ∧ stored.activatedAt = none ∧
      stored.expiresAt = some (stored.createdAt + TOKEN_TTL_MS)) :=
  ⟨by decide, by decide, le_refl 0, by norm_num,
   C4_register_always_fresh_pending [("a@b.com", samplePending)] "a@b.com"
     (List.replicate 32 0) 0 7 (by decide) (by decide) (le_refl 0) (by norm_num)⟩

/-- C9: every code the generator produces encodes a natural number in
100000–999999 inclusive and is a 6-character decimal string passing the
`/^[0-9]{6}$/` validator used by `redeemByCode`. -/
theorem C9_genCode_format (r : ℚ) (h0 : 0 ≤ r) (h1 : r < 1) :
    100000 ≤ genCodeNat r ∧ genCodeNat r ≤ 999999 ∧
    genCode r = natToString (genCodeNat r) ∧
    (genCode r).length = 6 ∧ isSixDigits (genCode r) = true := by
  obtain ⟨hlo, hhi⟩ := genCodeNat_bounds h0 h1
  have hspec := natToString_spec (k := 5) (n := genCodeNat r)
    (by norm_num; omega) (by norm_num; omega)
  exact ⟨hlo, hhi, rfl, hspec.1, isSixDigits_genCode h0 h1⟩

/-- C9 witness: the generator at the concrete draw `r = 1/2`. -/
theorem C9_witness :
    100000 ≤ genCodeNat (1/2) ∧ genCodeNat (1/2) ≤ 999999 ∧
    genCode (1/2) = natToString (genCodeNat (1/2)) ∧
    (genCode (1/2)).length = 6 ∧ isSixDigits (genCode (1/2)) = true :=
  C9_genCode_format (1/2) (by norm_num) (by norm_num)

/-- C8: for every registry state and every supplied code string that is
not exactly six decimal digits, `redeemByCode` answers `InvalidCode` and
returns the registry completely unchanged (the handler rejects before it
even sweeps). -/
theorem C8_invalid_code_rejected (db : Db) (email codeStr : String) (t : Nat)
    (hem : isEmail email = true) (hcode : isSixDigits codeStr = false) :
    handleActivateByCode db (some email) (some codeStr) t = (.invalidCode, db) := by
  simp [handleActivateByCode, hem, hcode]

/-- C8 witness: the spec's own scenario, code `"12a45"`. -/
theorem C8_witness :
    isEmail "a@b.com" = true ∧ isSixDigits "12a45" = false ∧
    handleActivateByCode [("a@b.com", samplePending)] (some "a@b.com")
      (some "12a45") 3 = (.invalidCode, [("a@b.com", samplePending)]) :=
  ⟨by decide, by decide,
   C8_invalid_code_rejected [("a@b.com", samplePending)] "a@b.com" "12a45" 3
     (by decide) (by decide)⟩

/-- C6: the credential-pairing invariant — while Pending, token and code
are both present and `activatedAt` unset; once Active, token, code and
`expiresAt` are all null and `activatedAt` set — holds of every stored
record after every operation, whenever it held before. -/
theorem C6_pairing_invariant (db : Db) (h : DbInv db) :
    (∀ email? tok code t, DbInv (handleRegister db email? tok code t).2) ∧
    (∀ token? t, DbInv (handleActivateByToken db token? t).2) ∧
    (∀ email? code? t, DbInv (handleActivateByCode db email? code? t).2) ∧
    (∀ email? t, DbInv (handleStatus db email? t).2) ∧
    (∀ email? tokA codeA newTok newCode t,
      DbInv (handleResend db email? tokA codeA newTok newCode t).2) :=
  ⟨fun a b c d => DbInv_handleRegister db a b c d h,
   fun a b => DbInv_handleActivateByToken db a b h,
   fun a b c => DbInv_handleActivateByCode db a b c h,
   fun a b => DbInv_handleStatus db a b h,
   fun a b c d e f => DbInv_handleResend db a b c d e f h⟩

/-- C6 witness: the invariant propagates through a concrete activation
on a concrete one-record registry. -/
theorem C6_witness :
    DbInv [("a@b.com", samplePending)] ∧
    DbInv (handleActivateByToken [("a@b.com", samplePending)] (some "tokOld") 3).2 :=
  ⟨by decide,
   (C6_pairing_invariant [("a@b.com", samplePending)] (by decide)).2.1 (some "tokOld") 3⟩

/-- C7: `resend` on an identity whose record is Active returns the
existing Active status and does not touch the record or regenerate
anything: the resulting registry is exactly the swept registry, the
record is returned unchanged, and every surviving entry was already
present before the call. -/
theorem C7_resend_active_noop (db : Db) (email : String) (r0 : Rec)
    (tokA codeA newTok newCode : String) (t : Nat)
    (hem : isEmail email = true)
    (hget : dbGet db (strToLower email) = some r0)
    (hact : r0.status = .active) :
    (handleResend db (some email) tokA codeA newTok newCode t).1
      = .alreadyActive r0.email ∧
    (handleResend db (some email) tokA codeA newTok newCode t).2
      = purgeExpired db t ∧
    dbGet (handleResend db (some email) tokA codeA newTok newCode t).2
      (strToLower email) = some r0 ∧
    ∀ p ∈ (handleResend db (some email) tokA codeA newTok newCode t).2, p ∈ db := by
  have hkeep : ¬ sweepable r0 t := by
    intro hs
    have h1 : r0.status = Status.pending := hs.1
    rw [hact] at h1
    exact absurd h1 (by simp)
  have hget1 : dbGet (purgeExpired db t) (strToLower email) = some r0 :=
    dbGet_purge_of_kept hget hkeep
  simp only [handleResend, hem, if_true, hget1]
  rw [if_pos hact]
  exact ⟨rfl, rfl, hget1, fun p hp => mem_purge hp⟩

/-- C7 witness: resend on a concrete registry holding an Active record. -/
theorem C7_witness :
    isEmail "a@b.com" = true ∧
    dbGet [("a@b.com", sampleActive)] (strToLower "a@b.com") = some sampleActive ∧
    sampleActive.status = .active ∧
    ((handleResend [("a@b.com", sampleActive)] (some "a@b.com") "x" "y" "z" "w" 9).1
      = .alreadyActive sampleActive.email ∧
    (handleResend [("a@b.com", sampleActive)] (some "a@b.com") "x" "y" "z" "w" 9).2
      = purgeExpired [("a@b.com", sampleActive)] 9 ∧
    dbGet (handleResend [("a@b.com", sampleActive)] (some "a@b.com") "x" "y" "z" "w" 9).2
      (strToLower "a@b.com") = some sampleActive ∧
    ∀ p ∈ (handleResend [("a@b.com", sampleActive)] (some "a@b.com") "x" "y" "z" "w" 9).2,
      p ∈ [("a@b.com", sampleActive)]) :=
  ⟨by decide, by decide, by decide,
   C7_resend_active_noop [("a@b.com", sampleActive)] "a@b.com" sampleActive
     "x" "y" "z" "w" 9 (by decide) (by decide) (by decide)⟩

/-- C10: the expiry boundary is exclusive — a Pending record whose
`expiresAt` equals the current time is not removed by the sweep, and
redemption by token or by matching code at that exact instant activates
instead of reporting Expired. -/
theorem C10_expiry_boundary_exclusive (db : Db) (email tok codeStr : String)
    (r0 : Rec) (t : Nat)
    (hem : isEmail email = true)
    (hget : dbGet db (strToLower email) = some r0)
    (hpend : r0.status = .pending)
    (hexp : r0.expiresAt = some t)
    (htok : r0.token = some tok) (htne : tok ≠ "")
    (huniq : ∀ p ∈ db, p.2.token = some tok → p = (strToLower email, r0))
    (hcode : r0.code = some codeStr) (h6 : isSixDigits codeStr = true) :
    dbGet (purgeExpired db t) (strToLower email) = some r0 ∧
    (handleActivateByToken db (some tok) t).1 = .activated r0.email t ∧
    (handleActivateByCode db (some email) (some codeStr) t).1
      = .activated r0.email t := by
  have hnexp : recExpired r0 t = false := by
    simp [recExpired, hexp]
  have hkeep : ¬ sweepable r0 t := fun hs => Bool.false_ne_true (hnexp ▸ hs.2)
  have hget1 : dbGet (purgeExpired db t) (strToLower email) = some r0 :=
    dbGet_purge_of_kept hget hkeep
  have hmem1 : (strToLower email, r0) ∈ purgeExpired db t :=
    mem_purge_of_mem (dbGet_mem hget) hkeep
  have hfind : findEntryByToken (purgeExpired db t) tok = some (strToLower email, r0) :=
    findEntryByToken_eq_some_of_unique hmem1 htok
      (fun p hp hptok => huniq p (mem_purge hp) hptok)
  refine ⟨hget1, ?_, ?_⟩
  · simp only [handleActivateByToken]
    rw [if_neg htne]
    simp only [hfind]
    rw [if_neg (show ¬ (r0.status = Status.active) by simp [hpend])]
    rw [if_neg (show ¬ (recExpired r0 t = true) by simp [hnexp])]
    rfl
  · simp only [handleActivateByCode, hem, if_true, Option.getD_some, h6, hget1]
    rw [if_neg (show ¬ (r0.status = Status.active) by simp [hpend])]
    rw [if_neg (show ¬ (recExpired r0 t = true) by simp [hnexp])]
    rw [if_neg (show ¬ (r0.code ≠ some codeStr) by simp [hcode])]
    rfl

/-- C10 witness: a concrete record expiring exactly at the call time 5. -/
theorem C10_witness :
    (dbGet (purgeExpired [("a@b.com", samplePending)] 5) (strToLower "a@b.com")
      = some samplePending ∧
    (handleActivateByToken [("a@b.com", samplePending)] (some "tokOld") 5).1
      = .activated samplePending.email 5 ∧
    (handleActivateByCode [("a@b.com", samplePending)] (some "a@b.com")
      (some "123456") 5).1 = .activated samplePending.email 5) :=
  C10_expiry_boundary_exclusive [("a@b.com", samplePending)] "a@b.com" "tokOld"
    "123456" samplePending 5 (by decide) (by decide) (by decide) (by decide)
    (by decide) (by decide) (by decide) (by decide) (by decide)

/-- C1 counterexample: register, redeem the link once (activation), then
redeem the very same original token again — the second call answers
`NotFound`, not an idempotent Active success, because activation nulled
the stored token. -/
theorem C1_counterexample :
    (handleActivateByToken
      (handleActivateByToken
        ((handleRegister [] (some "a@b.com") "tokOld" "123456" 1000).2)
        (some "tokOld") 1000).2
      (some "tokOld") 1001).1 = TokenResult.notFound := by decide

/-- C1 (amended): a first token redemption activates the record, but a
second redemption by the same original token answers `NotFound` (the
token was cleared by activation), does not re-activate, and leaves the
record Active with `activatedAt` exactly as the first redemption set
it. -/
theorem C1_second_redemption_not_found (db : Db) (tok k : String) (r0 : Rec)
    (t1 t2 : Nat)
    (hnd : (List.map Prod.fst db).Nodup)
    (hget : dbGet db k = some r0)
    (hpend : r0.status = .pending)
    (htok : r0.token = some tok) (htne : tok ≠ "")
    (hnexp1 : recExpired r0 t1 = false)
    (huniq : ∀ p ∈ db, p.2.token = some tok → p = (k, r0)) :
    (handleActivateByToken db (some tok) t1).1 = .activated r0.email t1 ∧
    (handleActivateByToken (handleActivateByToken db (some tok) t1).2
        (some tok) t2).1 = .notFound ∧
    dbGet (handleActivateByToken (handleActivateByToken db (some tok) t1).2
        (some tok) t2).2 k = some (activateRecord r0 t1) := by
  have hkeep : ¬ sweepable r0 t1 := fun hs => Bool.false_ne_true (hnexp1 ▸ hs.2)
  have hget1 : dbGet (purgeExpired db t1) k = some r0 :=
    dbGet_purge_of_kept hget hkeep
  have hmem1 : (k, r0) ∈ purgeExpired db t1 :=
    mem_purge_of_mem (dbGet_mem hget) hkeep
  have hfind : findEntryByToken (purgeExpired db t1) tok = some (k, r0) :=
    findEntryByToken_eq_some_of_unique hmem1 htok
      (fun p hp hptok => huniq p (mem_purge hp) hptok)
  have heq : handleActivateByToken db (some tok) t1
      = (.activated r0.email t1,
         dbSet (purgeExpired db t1) k (activateRecord r0 t1)) := by
    simp only [handleActivateByToken]
    rw [if_neg htne]
    simp only [hfind]
    rw [if_neg (show ¬ (r0.status = Status.active) by simp [hpend])]
    rw [if_neg (show ¬ (recExpired r0 t1 = true) by simp [hnexp1])]
    rfl
  have hnd1 : (List.map Prod.fst (purgeExpired db t1)).Nodup := nodup_purge hnd
  have hnotok : ∀ p ∈ dbSet (purgeExpired db t1) k (activateRecord r0 t1),
      p.2.token ≠ some tok := by
    intro p hp
    cases mem_dbSet_nodup hnd1 hp with
    | inl he =>
      rw [he]
      intro hcon
      simp [activateRecord] at hcon
    | inr hc =>
      intro hcon
      exact hc.2 (congrArg Prod.fst (huniq p (mem_purge hc.1) hcon))
  have hfind2 : findEntryByToken
      (purgeExpired (dbSet (purgeExpired db t1) k (activateRecord r0 t1)) t2) tok
      = none :=
    findEntryByToken_eq_none fun p hp => hnotok p (mem_purge hp)
  have heq2 : handleActivateByToken
      (dbSet (purgeExpired db t1) k (activateRecord r0 t1)) (some tok) t2
      = (.notFound,
         purgeExpired (dbSet (purgeExpired db t1) k (activateRecord r0 t1)) t2) := by
    simp only [handleActivateByToken]
    rw [if_neg htne]
    simp only [hfind2]
  have hget2 : dbGet (dbSet (purgeExpired db t1) k (activateRecord r0 t1)) k
      = some (activateRecord r0 t1) := dbGet_dbSet_self _ _ _
  have hkeep2 : ¬ sweepable (activateRecord r0 t1) t2 := by
    intro hs
    have h1 : (activateRecord r0 t1).status = Status.pending := hs.1
    simp [activateRecord] at h1
  refine ⟨by rw [heq], by rw [heq, heq2], ?_⟩
  rw [heq, heq2]
  exact dbGet_purge_of_kept hget2 hkeep2

/-- C1 witness: the amended behaviour on a concrete one-record registry. -/
theorem C1_witness :
    ((handleActivateByToken [("a@b.com", samplePending)] (some "tokOld") 3).1
      = .activated samplePending.email 3 ∧
    (handleActivateByToken
      (handleActivateByToken [("a@b.com", samplePending)] (some "tokOld") 3).2
      (some "tokOld") 4).1 = .notFound ∧
    dbGet (handleActivateByToken
      (handleActivateByToken [("a@b.com", samplePending)] (some "tokOld") 3).2
      (some "tokOld") 4).2 "a@b.com" = some (activateRecord samplePending 3)) :=
  C1_second_redemption_not_found [("a@b.com", samplePending)] "tokOld" "a@b.com"
    samplePending 3 4 (by decide) (by decide) (by decide) (by decide) (by decide)
    (by decide) (by decide)

/-- C2 counterexample: a Pending record expiring at 5, `status` queried
at 10 — the call reports `None`, not the stored stale Pending fields,
because `handleStatus` itself sweeps first. -/
theorem C2_counterexample :
    (handleStatus [("a@b.com", samplePending)] (some "a@b.com") 10).1
      = .noRecord "a@b.com" := by decide

/-- C2 (amended): for a Pending record whose (nonzero) `expiresAt` is
strictly in the past, `status` reports `None` — the sweep that
`handleStatus` runs before reading removes the record, so the stale
Pending report never survives a status call; the record is also gone
from the stored registry afterwards. -/
theorem C2_status_sweeps_expired (db : Db) (email : String) (r0 : Rec)
    (e t : Nat)
    (hnd : (List.map Prod.fst db).Nodup)
    (hem : isEmail email = true)
    (hget : dbGet db (strToLower email) = some r0)
    (hpend : r0.status = .pending)
    (hexp : r0.expiresAt = some e) (he0 : 0 < e) (het : e < t) :
    (handleStatus db (some email) t).1 = .noRecord email ∧
    dbGet (handleStatus db (some email) t).2 (strToLower email) = none := by
  have hsw : sweepable r0 t := by
    refine ⟨hpend, ?_⟩
    simp only [recExpired, hexp]
    simp
    omega
  have hnone : dbGet (purgeExpired db t) (strToLower email) = none :=
    dbGet_purge_of_removed hnd hget hsw
  have heqS : handleStatus db (some email) t = (.noRecord email, purgeExpired db t) := by
    simp only [handleStatus, hem, if_true, hnone]
  exact ⟨by rw [heqS], by rw [heqS]; exact hnone⟩

/-- C2 witness: the amended behaviour at the same concrete input as the
counterexample. -/
theorem C2_witness :
    ((handleStatus [("a@b.com", samplePending)] (some "a@b.com") 10).1
      = .noRecord "a@b.com" ∧
    dbGet (handleStatus [("a@b.com", samplePending)] (some "a@b.com") 10).2
      (strToLower "a@b.com") = none) :=
  C2_status_sweeps_expired [("a@b.com", samplePending)] "a@b.com" samplePending
    5 10 (by decide) (by decide) (by decide) (by decide) (by decide)
    (by decide) (by decide)

/-- C3 counterexample: redeeming the concrete expired-but-stored record
(by its token, and by its correct code) answers `NotFound`, not
`Expired`: the sweep at the start of each redemption handler removes the
record before the expiry branch can fire. -/
theorem C3_counterexample :
    (handleActivateByToken [("a@b.com", samplePending)] (some "tokOld") 10).1
      = TokenResult.notFound ∧
    (handleActivateByCode [("a@b.com", samplePending)] (some "a@b.com")
      (some "123456") 10).1 = CodeResult.notFound := by decide

/-- C3 (amended): redeeming a Pending record whose (nonzero) `expiresAt`
is strictly past fails without ever activating it — but with `NotFound`,
not `Expired`: the handler's sweep deletes the record first, so the
lookup misses and the record is gone from the registry afterwards. -/
theorem C3_expired_redemption_fails (db : Db) (email tok codeStr : String)
    (r0 : Rec) (e t : Nat)
    (hnd : (List.map Prod.fst db).Nodup)
    (hem : isEmail email = true)
    (hget : dbGet db (strToLower email) = some r0)
    (hpend : r0.status = .pending)
    (hexp : r0.expiresAt = some e) (he0 : 0 < e) (het : e < t)
    (htok : r0.token = some tok) (htne : tok ≠ "")
    (huniq : ∀ p ∈ db, p.2.token = some tok → p = (strToLower email, r0))
    (h6 : isSixDigits codeStr = true) :
    (handleActivateByToken db (some tok) t).1 = .notFound ∧
    dbGet (handleActivateByToken db (some tok) t).2 (strToLower email) = none ∧
    (handleActivateByCode db (some email) (some codeStr) t).1 = .notFound ∧
    dbGet (handleActivateByCode db (some email) (some codeStr) t).2
      (strToLower email) = none := by
  have hsw : sweepable r0 t := by
    refine ⟨hpend, ?_⟩
    simp only [recExpired, hexp]
    simp
    omega
  have hnone : dbGet (purgeExpired db t) (strToLower email) = none :=
    dbGet_purge_of_removed hnd hget hsw
  have hfindnone : findEntryByToken (purgeExpired db t) tok = none := by
    apply findEntryByToken_eq_none
    intro p hp hptok
    apply mem_purge_not_sweepable hp
    rw [huniq p (mem_purge hp) hptok]
    exact hsw
  have heqT : handleActivateByToken db (some tok) t
      = (.notFound, purgeExpired db t) := by
    simp only [handleActivateByToken]
    rw [if_neg htne]
    simp only [hfindnone]
  have heqC : handleActivateByCode db (some email) (some codeStr) t
      = (.notFound, purgeExpired db t) := by
    simp only [handleActivateByCode, hem, if_true, Option.getD_some, h6, hnone]
  exact ⟨by rw [heqT], by rw [heqT]; exact hnone,
         by rw [heqC], by rw [heqC]; exact hnone⟩

/-- C3 witness: the amended behaviour at the same concrete input as the
counterexample. -/
theorem C3_witness :
    ((handleActivateByToken [("a@b.com", samplePending)] (some "tokOld") 10).1
      = .notFound ∧
    dbGet (handleActivateByToken [("a@b.com", samplePending)] (some "tokOld") 10).2
      (strToLower "a@b.com") = none ∧
    (handleActivateByCode [("a@b.com", samplePending)] (some "a@b.com")
      (some "123456") 10).1 = .notFound ∧
    dbGet (handleActivateByCode [("a@b.com", samplePending)] (some "a@b.com")
      (some "123456") 10).2 (strToLower "a@b.com") = none) :=
  C3_expired_redemption_fails [("a@b.com", samplePending)] "a@b.com" "tokOld"
    "123456" samplePending 5 10 (by decide) (by decide) (by decide) (by decide)
    (by decide) (by decide) (by decide) (by decide) (by decide) (by decide)
    (by decide)

/-- C5: after `resend` regenerates the credentials of a Pending record,
redeeming with the token stored before the resend answers `NotFound` and
can never activate the record: afterwards the record (if still present)
is still Pending and carries only the new token. -/
theorem C5_resend_invalidates_old_token (db : Db)
    (email tokA codeA newTok newCode oldTok : String) (r0 : Rec) (t1 t2 : Nat)
    (hnd : (List.map Prod.fst db).Nodup)
    (hem : isEmail email = true)
    (hget : dbGet db (strToLower email) = some r0)
    (hpend : r0.status = .pending)
    (htok : r0.token = some oldTok) (htne : oldTok ≠ "")
    (hnexp1 : recExpired r0 t1 = false)
    (hnew : newTok ≠ oldTok)
    (huniq : ∀ p ∈ db, p.2.token = some oldTok → p = (strToLower email, r0)) :
    (handleResend db (some email) tokA codeA newTok newCode t1).1
      = .reissued r0.email newTok newCode (t1 + TOKEN_TTL_MS) ∧
    (handleActivateByToken (handleResend db (some email) tokA codeA newTok newCode t1).2
        (some oldTok) t2).1 = .notFound ∧
    ∀ r2, dbGet (handleActivateByToken
        (handleResend db (some email) tokA codeA newTok newCode t1).2
        (some oldTok) t2).2 (strToLower email) = some r2 →
      r2.status = .pending ∧ r2.token = some newTok := by
  have hkeep : ¬ sweepable r0 t1 := fun hs => Bool.false_ne_true (hnexp1 ▸ hs.2)
  have hget1 : dbGet (purgeExpired db t1) (strToLower email) = some r0 :=
    dbGet_purge_of_kept hget hkeep
  have heqR : handleResend db (some email) tokA codeA newTok newCode t1
      = (.reissued r0.email newTok newCode (t1 + TOKEN_TTL_MS),
         dbSet (purgeExpired db t1) (strToLower email)
           (reissueRec r0 newTok newCode t1)) := by
    simp only [handleResend, hem, if_true, hget1]
    rw [if_neg (show ¬ (r0.status = Status.active) by simp [hpend])]
    rfl
  have hnd1 : (List.map Prod.fst (purgeExpired db t1)).Nodup := nodup_purge hnd
  have hnd2 : (List.map Prod.fst (dbSet (purgeExpired db t1) (strToLower email)
      (reissueRec r0 newTok newCode t1))).Nodup :=
    nodup_dbSet hnd1
  have hnotok : ∀ p ∈ dbSet (purgeExpired db t1) (strToLower email)
      (reissueRec r0 newTok newCode t1), p.2.token ≠ some oldTok := by
    intro p hp
    cases mem_dbSet_nodup hnd1 hp with
    | inl he =>
      rw [he]
      intro hcon
      exact hnew (Option.some.inj hcon)
    | inr hc =>
      intro hcon
      exact hc.2 (congrArg Prod.fst (huniq p (mem_purge hc.1) hcon))
  have hfind2 : findEntryByToken (purgeExpired (dbSet (purgeExpired db t1)
      (strToLower email) (reissueRec r0 newTok newCode t1)) t2) oldTok = none :=
    findEntryByToken_eq_none fun p hp => hnotok p (mem_purge hp)
  have heqT : handleActivateByToken (dbSet (purgeExpired db t1) (strToLower email)
      (reissueRec r0 newTok newCode t1)) (some oldTok) t2
      = (.notFound, purgeExpired (dbSet (purgeExpired db t1) (strToLower email)
          (reissueRec r0 newTok newCode t1)) t2) := by
    simp only [handleActivateByToken]
    rw [if_neg htne]
    simp only [hfind2]
  have hget2 : dbGet (dbSet (purgeExpired db t1) (strToLower email)
      (reissueRec r0 newTok newCode t1)) (strToLower email)
      = some (reissueRec r0 newTok newCode t1) :=
    dbGet_dbSet_self _ _ _
  refine ⟨by rw [heqR], by rw [heqR, heqT], ?_⟩
  intro r2 hr2
  rw [heqR, heqT] at hr2
  have hmem : (strToLower email, r2) ∈ dbSet (purgeExpired db t1) (strToLower email)
      (reissueRec r0 newTok newCode t1) :=
    mem_purge (dbGet_mem hr2)
  have hsame : dbGet (dbSet (purgeExpired db t1) (strToLower email)
      (reissueRec r0 newTok newCode t1)) (strToLower email) = some r2 :=
    dbGet_eq_of_mem_nodup hnd2 hmem
  rw [hget2] at hsame
  injection hsame with h2
  rw [← h2]
  exact ⟨hpend, rfl⟩

/-- C5 witness: concrete resend then old-token redemption. -/
theorem C5_witness :
    ((handleResend [("a@b.com", samplePending)] (some "a@b.com") "ta" "ca"
        "tokNew" "654321" 3).1
      = .reissued samplePending.email "tokNew" "654321" (3 + TOKEN_TTL_MS) ∧
    (handleActivateByToken (handleResend [("a@b.com", samplePending)]
        (some "a@b.com") "ta" "ca" "tokNew" "654321" 3).2 (some "tokOld") 4).1
      = .notFound ∧
    ∀ r2, dbGet (handleActivateByToken (handleResend [("a@b.com", samplePending)]
        (some "a@b.com") "ta" "ca" "tokNew" "654321" 3).2 (some "tokOld") 4).2
        (strToLower "a@b.com") = some r2 →
      r2.status = .pending ∧ r2.token = some "tokNew") :=
  C5_resend_invalidates_old_token [("a@b.com", samplePending)] "a@b.com" "ta" "ca"
    "tokNew" "654321" "tokOld" samplePending 3 4 (by decide) (by decide) (by decide)
    (by decide) (by decide) (by decide) (by decide) (by decide) (by decide)
